import Mathlib

set_option maxHeartbeats 1000000

/-! Shallow embedding of `my_model_selectors.py` and `my_recognizer.py`.

Observation matrices are lists of frames and frames are lists of rationals
(floating-point numerics are modelled over `ℚ`).  The external numerical
primitives (`GaussianHMM(...).fit`, `model.score`, `np.log`) are oracle
parameters. `Option` models a Python exception caught by a bare `except:`
clause (`none` = the block raised); `Except Unit` models an exception that
escapes a function to its caller. -/

abbrev Mat : Type := List (List ℚ)

abbrev Lens : Type := List Nat

abbrev ObsSeq : Type := List (List ℚ)

abbrev Label : Type := String

/-- Extended line of score values as produced by Python floats: the sentinels
`float('inf')` and `float('-inf')` together with finite values. -/
inductive XScore : Type where
  | ninf : XScore
  | fin : ℚ → XScore
  | pinf : XScore
deriving DecidableEq, Repr

/-- Python `<` on the modelled float values. -/
def XScore.lt : XScore → XScore → Bool
  | .ninf, .ninf => false
  | .ninf, _ => true
  | .fin _, .ninf => false
  | .fin a, .fin b => decide (a < b)
  | .fin _, .pinf => true
  | .pinf, _ => false

/-- The external sequence-model primitives (hmmlearn's `GaussianHMM`), as an
oracle: `fit numStates X lengths` is `GaussianHMM(n_components=numStates,
random_state=self.random_state, n_iter=1000).fit(X, lengths)` and `score` is
`model.score`; `none` is the primitive raising (`FitFailure`/`ScoreFailure`). -/
structure HMMEnv (M : Type) where
  fit : Nat → Mat → Lens → Option M
  score : M → Mat → Lens → Option ℚ

/-- The fields a `ModelSelector` instance carries after `__init__`:
`words` is the key list of `all_word_sequences` in dict iteration order,
`hwords` the `all_word_Xlengths` dict as an association list, and
`sequences`, `X`, `lengths` the entries for `this_word`. -/
structure ModelSelector where
  words : List Label
  hwords : List (Label × Mat × Lens)
  sequences : List ObsSeq
  X : Mat
  lengths : Lens
  this_word : Label
  n_constant : Nat
  min_n_components : Nat
  max_n_components : Nat

/-- ModelSelector.base_model: fit at `num_states`, with the surrounding
`try/except` returning `None` on any failure. -/
def base_model {M : Type} (env : HMMEnv M) (sel : ModelSelector)
    (num_states : Nat) : Option M :=
  env.fit num_states sel.X sel.lengths

/-- Python `range(lo, hi + 1)` as a list. -/
def rangeList (lo hi : Nat) : List Nat := List.range' lo (hi + 1 - lo)

/-- Python `range(self.min_n_components, self.max_n_components + 1)`. -/
def componentRange (sel : ModelSelector) : List Nat :=
  rangeList sel.min_n_components sel.max_n_components

/-- The running-best loop shared by the three criterion selectors: `cand k` is
the body of one `try:` block for `n_components = k` (`none` when it raised),
`better q s` is the comparison of the candidate score against the running best
score, and `acc` carries `(best_model, best_score)`. -/
def selectLoop {M : Type} (cand : Nat → Option (M × ℚ))
    (better : ℚ → XScore → Bool) (acc : Option M × XScore) :
    List Nat → Option M × XScore
  | [] => acc
  | k :: ks =>
    match cand k with
    | none => selectLoop cand better acc ks
    | some (m, q) =>
      if better q acc.2 then selectLoop cand better (some m, XScore.fin q) ks
      else selectLoop cand better acc ks

/-- BIC's update test `current_score < best_score`. -/
def bicBetter (q : ℚ) (s : XScore) : Bool := XScore.lt (XScore.fin q) s

/-- DIC's and CV's update test `current_score > best_score`. -/
def dicBetter (q : ℚ) (s : XScore) : Bool := XScore.lt s (XScore.fin q)

/-- One iteration of the loop body of SelectorBIC.select (its `try:` block):
fit at `n_components`, self-score, and compute
`(-2)*logL + p*np.log(N)` with `p = n_components**2 + 2*n_features*n_components - 1`
and `N = len(self.X)`; `logfn` is the oracle for `np.log`. -/
def bicCandidate {M : Type} (env : HMMEnv M) (logfn : Nat → ℚ)
    (sel : ModelSelector) (n_features : Nat) (n_components : Nat) :
    Option (M × ℚ) := do
  let current_model ← env.fit n_components sel.X sel.lengths
  let logL ← env.score current_model sel.X sel.lengths
  let p : ℚ := (n_components * n_components + 2 * n_features * n_components : ℚ) - 1
  some (current_model, (-2) * logL + p * logfn sel.X.length)

namespace SelectorBIC

/-- SelectorBIC.select: the running best starts as the constant-topology
fallback with best score `float('inf')`; `n_features = len(self.X[0])` is read
outside any `try:`, so on an empty matrix the `IndexError` escapes, modelled
as `Except.error ()`. -/
def select {M : Type} (env : HMMEnv M) (logfn : Nat → ℚ)
    (sel : ModelSelector) : Except Unit (Option M) :=
  let best_model := base_model env sel sel.n_constant
  match sel.X with
  | [] => Except.error ()
  | row0 :: _ =>
    Except.ok (selectLoop (bicCandidate env logfn sel row0.length) bicBetter
      (best_model, XScore.pinf) (componentRange sel)).1

end SelectorBIC

/-- The competing-word loop of SelectorDIC.select: iterate the keys of
`self.words`, skip `this_word`, look the word up in `self.hwords` and score the
candidate model on its corpus.  The loop runs inside the candidate's single
`try:` block, so a lookup `KeyError` or a score failure anywhere aborts the
whole candidate (`none`). -/
def scoreCompeting {M : Type} (env : HMMEnv M) (m : M) (sel : ModelSelector) :
    List Label → Option (List ℚ)
  | [] => some []
  | w :: ws =>
    if w = sel.this_word then scoreCompeting env m sel ws
    else do
      let wxl ← sel.hwords.lookup w
      let s ← env.score m wxl.1 wxl.2
      let rest ← scoreCompeting env m sel ws
      some (s :: rest)

/-- One iteration of the loop body of SelectorDIC.select: fit, self-score,
score all competing words, and form `logL - np.average(sum_logL)`.
With no competing word `np.average([])` is `nan`, which never passes the
`current_score > best_score` update test, so that case is identical to the
candidate being skipped (`none`). -/
def dicCandidate {M : Type} (env : HMMEnv M) (sel : ModelSelector)
    (n_components : Nat) : Option (M × ℚ) := do
  let current_model ← env.fit n_components sel.X sel.lengths
  let logL ← env.score current_model sel.X sel.lengths
  let sum_logL ← scoreCompeting env current_model sel sel.words
  if sum_logL.isEmpty then none
  else some (current_model, logL - sum_logL.sum / (sum_logL.length : ℚ))

namespace SelectorDIC

/-- SelectorDIC.select: running best starts as the constant-topology fallback
with best score `float('-inf')`; maximize the DIC over the component range. -/
def select {M : Type} (env : HMMEnv M) (sel : ModelSelector) : Option M :=
  (selectLoop (dicCandidate env sel) dicBetter
    (base_model env sel sel.n_constant, XScore.ninf) (componentRange sel)).1

end SelectorDIC

/-- Model of sklearn KFold fold-size bookkeeping: with `q = n / k` and
`r = n % k`, test fold `i` is the consecutive block starting at
`q*i + min i r`, of size `q + 1` for `i < r` and `q` afterwards. -/
def foldTestIdx (q r i : Nat) : List Nat :=
  List.range' (q * i + min i r) (q + if i < r then 1 else 0)

/-- Model of sklearn KFold train indices: every sample index not in the test
block, in increasing order. -/
def foldTrainIdx (n : Nat) (test : List Nat) : List Nat :=
  (List.range n).filter (fun j => decide (j ∉ test))

/-- Model of sklearn `KFold(n_splits=...).split` over `n_samples` whole-sequence
indices (an external collaborator, the spec's `kFoldSplit`): it raises a
`ValueError` when `n_splits < 2` (at construction) or `n_splits > n_samples`
(at split time), modelled as `none`; otherwise it yields the list of
`(train_id, test_id)` pairs with consecutive test blocks. -/
def kFoldSplit (n_splits n_samples : Nat) : Option (List (List Nat × List Nat)) :=
  if n_splits < 2 ∨ n_samples < n_splits then none
  else some ((List.range n_splits).map (fun i =>
    let test := foldTestIdx (n_samples / n_splits) (n_samples % n_splits) i
    (foldTrainIdx n_samples test, test)))

/-- Modelled from the spec: `combine_sequences` lives in `asl_utils`, which is
not under `src/`; §6 specifies it as concatenating the selected sequences'
rows and lengths in index order. -/
def combine_sequences (ids : List Nat) (seqs : List ObsSeq) : Mat × Lens :=
  ((ids.map (fun i => seqs.getD i [])).flatten,
   ids.map (fun i => (seqs.getD i []).length))

/-- The fold loop of SelectorCV.select: per fold, combine the train and test
sequence selections, fit at `n_components` on the train pair, score on the
held-out pair; collect the held-out log-likelihoods and keep the model object
the Python loop variable `current_model` holds after the loop — the model
fitted in the last fold.  Any fold's fit or score failure raises out of the
candidate's single `try:` block (`none`).  An empty fold list leaves
`current_model` unbound and `np.average([])` undefined, also `none`
(unreachable from `kFoldSplit`, which always yields at least two folds). -/
def runFolds {M : Type} (env : HMMEnv M) (n_components : Nat)
    (seqs : List ObsSeq) : List (List Nat × List Nat) → Option (List ℚ × M)
  | [] => none
  | [fold] => do
    let train := combine_sequences fold.1 seqs
    let test := combine_sequences fold.2 seqs
    let current_model ← env.fit n_components train.1 train.2
    let s ← env.score current_model test.1 test.2
    some ([s], current_model)
  | fold :: fold2 :: folds => do
    let train := combine_sequences fold.1 seqs
    let test := combine_sequences fold.2 seqs
    let current_model ← env.fit n_components train.1 train.2
    let s ← env.score current_model test.1 test.2
    let rest ← runFolds env n_components seqs (fold2 :: folds)
    some (s :: rest.1, rest.2)

/-- `KFold(n_splits=min(3, len(self.lengths)))` split over `self.sequences`. -/
def cvFolds (sel : ModelSelector) : Option (List (List Nat × List Nat)) :=
  kFoldSplit (min 3 sel.lengths.length) sel.sequences.length

/-- One iteration of the loop body of SelectorCV.select: split into folds, run
the fold loop, and average the held-out log-likelihoods (`np.average(logL)`). -/
def cvCandidate {M : Type} (env : HMMEnv M) (sel : ModelSelector)
    (n_components : Nat) : Option (M × ℚ) := do
  let folds ← cvFolds sel
  let r ← runFolds env n_components sel.sequences folds
  some (r.2, r.1.sum / (r.1.length : ℚ))

namespace SelectorCV

/-- SelectorCV.select: running best starts as the constant-topology fallback
with best score `float('-inf')`; maximize the mean held-out log-likelihood. -/
def select {M : Type} (env : HMMEnv M) (sel : ModelSelector) : Option M :=
  (selectLoop (cvCandidate env sel) dicBetter
    (base_model env sel sel.n_constant, XScore.ninf) (componentRange sel)).1

end SelectorCV

namespace SelectorConstant

/-- SelectorConstant.select: the fit at `self.n_constant`, or `None`. -/
def select {M : Type} (env : HMMEnv M) (sel : ModelSelector) : Option M :=
  base_model env sel sel.n_constant

end SelectorConstant

/-- One `scores` dict of `recognize`, built by iterating `models.items()` in
bank order; a score failure is recorded as `float("-inf")` for that word. -/
def scoreRow {M : Type} (env : HMMEnv M) (models : List (Label × M))
    (X : Mat) (lengths : Lens) : List (Label × XScore) :=
  models.map (fun wm =>
    (wm.1, match env.score wm.2 X lengths with
           | some s => XScore.fin s
           | none => XScore.ninf))

/-- Python `max(scores, key=scores.get)` accumulator: the running key is
replaced only on a strictly greater value, so ties keep the earlier key. -/
def argmaxGo (w : Label) (s : XScore) : List (Label × XScore) → Label
  | [] => w
  | e :: rest => if XScore.lt s e.2 then argmaxGo e.1 e.2 rest else argmaxGo w s rest

/-- Python `max(scores, key=scores.get)`: `none` models the `ValueError` that
`max` raises on an empty dict. -/
def argmaxRow : List (Label × XScore) → Option Label
  | [] => none
  | e :: rest => some (argmaxGo e.1 e.2 rest)

/-- The `recognize` function: the test set is
`test_set.get_all_Xlengths().items()` as an ordered list of
`(word_id, (X, lengths))` in the corpus's canonical item order; per item the
`scores` row is appended to `probabilities` and the arg-max word to `guesses`.
`Except.error ()` models the uncaught `ValueError` from `max` over an empty
`scores` dict (which happens exactly when the model bank is empty). -/
def recognize {M : Type} (env : HMMEnv M) (models : List (Label × M)) :
    List (Nat × Mat × Lens) → Except Unit (List (List (Label × XScore)) × List Label)
  | [] => Except.ok ([], [])
  | item :: rest =>
    let row := scoreRow env models item.2.1 item.2.2
    match argmaxRow row with
    | none => Except.error ()
    | some g =>
      match recognize env models rest with
      | Except.error e => Except.error e
      | Except.ok pg => Except.ok (row :: pg.1, g :: pg.2)

/-- All-succeeding oracle: a fitted model is represented by its requested
state count, and a model's self-score is its own value. -/
def envA : HMMEnv Nat :=
  { fit := fun k _ _ => some k, score := fun m _ _ => some (m : ℚ) }

/-- Constant oracle for `np.log` used in concrete evaluations. -/
def logfn1 : Nat → ℚ := fun _ => 1

/-- One-word corpus with a single one-frame, one-feature sequence. -/
def selW1 : ModelSelector :=
  { words := ["A"], hwords := [("A", ([[0]], [1]))], sequences := [[[0]]],
    X := [[0]], lengths := [1], this_word := "A", n_constant := 3,
    min_n_components := 2, max_n_components := 3 }

/-- Oracle whose scoring fails exactly on the corpus `[[1]]` (word "B" below)
and succeeds elsewhere. -/
def envC2 : HMMEnv Nat :=
  { fit := fun k _ _ => some k,
    score := fun _ X _ => if X = [[1]] then none else some 0 }

/-- Three-word bank: target "A", competing "B" (whose corpus `envC2` cannot
score) and competing "C" (scorable). -/
def selC2 : ModelSelector :=
  { words := ["A", "B", "C"],
    hwords := [("A", ([[0]], [1])), ("B", ([[1]], [1])), ("C", ([[2]], [1]))],
    sequences := [[[0]]], X := [[0]], lengths := [1], this_word := "A",
    n_constant := 99, min_n_components := 2, max_n_components := 2 }

/-- Corpus with exactly one sequence. -/
def selC4 : ModelSelector :=
  { words := ["A"], hwords := [("A", ([[0]], [1]))], sequences := [[[0]]],
    X := [[0]], lengths := [1], this_word := "A", n_constant := 3,
    min_n_components := 2, max_n_components := 3 }

/-- Corpus with exactly two one-frame sequences. -/
def selW4 : ModelSelector :=
  { words := ["A"], hwords := [("A", ([[0], [1]], [1, 1]))],
    sequences := [[[0]], [[1]]], X := [[0], [1]], lengths := [1, 1],
    this_word := "A", n_constant := 3, min_n_components := 2,
    max_n_components := 2 }

/-- Oracle whose fit fails exactly on the training matrix `[[1]]` (the train
side of the first CV fold of `selW5`) and succeeds elsewhere. -/
def envC5 : HMMEnv Nat :=
  { fit := fun k X _ => if X = [[1]] then none else some k,
    score := fun m _ _ => some (m : ℚ) }

/-- Two-sequence corpus used for the CV fold-failure witness. -/
def selW5 : ModelSelector :=
  { words := ["A"], hwords := [("A", ([[0], [1]], [1, 1]))],
    sequences := [[[0]], [[1]]], X := [[0], [1]], lengths := [1, 1],
    this_word := "A", n_constant := 3, min_n_components := 2,
    max_n_components := 2 }

/-- Oracle that can only fit 5 states (the constant fallback below). -/
def envW8 : HMMEnv Nat :=
  { fit := fun k _ _ => if k = 5 then some 99 else none,
    score := fun m _ _ => some (m : ℚ) }

/-- Selector whose whole candidate range `[2, 3]` fails to fit under `envW8`
while the constant fallback `5` succeeds. -/
def selW8 : ModelSelector :=
  { words := ["A"], hwords := [("A", ([[0], [1]], [1, 1]))],
    sequences := [[[0]], [[1]]], X := [[0], [1]], lengths := [1, 1],
    this_word := "A", n_constant := 5, min_n_components := 2,
    max_n_components := 3 }

/-- Oracle whose scoring fails exactly on the test item `[[5]]`. -/
def envW3 : HMMEnv Nat :=
  { fit := fun k _ _ => some k,
    score := fun m X _ => if X = [[5]] then none else some (m : ℚ) }

/-- Two-word model bank for the recognizer witnesses. -/
def modelsW3 : List (Label × Nat) := [("A", 1), ("B", 2)]

/-- Two-word model bank. -/
def modelsW6 : List (Label × Nat) := [("A", 1), ("B", 2)]

/-- Two-item test corpus in canonical item order. -/
def tsW6 : List (Nat × Mat × Lens) := [(0, ([[2]], [1])), (1, ([[3]], [1]))]

/-- Two-word model bank. -/
def modelsW7 : List (Label × Nat) := [("A", 1), ("B", 2)]

/-- One-item test corpus. -/
def tsW7 : List (Nat × Mat × Lens) := [(0, ([[4]], [1]))]

/-- The score row `recognize` builds for `tsW7`'s single item under `envA`. -/
def rowW7 : List (Label × XScore) := [("A", XScore.fin 1), ("B", XScore.fin 2)]

/-- One-word model bank. -/
def modelsW9 : List (Label × Nat) := [("A", 1)]

/-- One-item test corpus. -/
def tsW9 : List (Nat × Mat × Lens) := [(0, ([[2]], [1]))]

/-- Oracle whose fitted model records the row count of its training matrix. -/
def envW10 : HMMEnv Nat :=
  { fit := fun _ X _ => some X.length, score := fun m _ _ => some (m : ℚ) }

/-- Two-sequence corpus (one one-frame and one two-frame sequence) for the
CV last-fold witness. -/
def selW10 : ModelSelector :=
  { words := ["A"], hwords := [("A", ([[0], [1], [2]], [1, 2]))],
    sequences := [[[0]], [[1], [2]]], X := [[0], [1], [2]], lengths := [1, 2],
    this_word := "A", n_constant := 3, min_n_components := 2,
    max_n_components := 2 }

/-- Conclusion of claim C1, for a selector whose concatenated matrix has first
row `row0` (so `n_features = row0.length`): the per-candidate BIC formula, the
initialization of the running best with the constant fallback and `+inf`, and
the minimization law over successfully fit-and-scored candidates. -/
def C1Concl {M : Type} (env : HMMEnv M) (logfn : Nat → ℚ) (sel : ModelSelector)
    (row0 : List ℚ) : Prop :=
  (∀ (k : Nat) (m : M) (logL : ℚ),
    env.fit k sel.X sel.lengths = some m →
    env.score m sel.X sel.lengths = some logL →
    bicCandidate env logfn sel row0.length k =
      some (m, (-2) * logL +
        ((k * k + 2 * row0.length * k : ℚ) - 1) * logfn sel.X.length)) ∧
  ((∀ k ∈ componentRange sel, bicCandidate env logfn sel row0.length k = none) →
    SelectorBIC.select env logfn sel =
      Except.ok (base_model env sel sel.n_constant)) ∧
  ((∃ k ∈ componentRange sel, ∃ mq,
      bicCandidate env logfn sel row0.length k = some mq) →
    ∃ k ∈ componentRange sel, ∃ m q,
      bicCandidate env logfn sel row0.length k = some (m, q) ∧
      SelectorBIC.select env logfn sel = Except.ok (some m) ∧
      ∀ k' ∈ componentRange sel, ∀ m' q',
        bicCandidate env logfn sel row0.length k' = some (m', q') → q ≤ q')

/-- Conclusion of the amended claim C2: a fitted candidate whose competing-word
loop fails is aborted wholesale (`none`), and a skipped candidate leaves the
selection over the remaining topologies unchanged. -/
def C2Concl {M : Type} (env : HMMEnv M) (sel : ModelSelector) (k : Nat) : Prop :=
  (∀ m, env.fit k sel.X sel.lengths = some m →
    scoreCompeting env m sel sel.words = none →
    dicCandidate env sel k = none) ∧
  (dicCandidate env sel k = none →
    SelectorDIC.select env sel =
      (selectLoop (dicCandidate env sel) dicBetter
        (base_model env sel sel.n_constant, XScore.ninf)
        ((componentRange sel).erase k)).1)

/-- A CV fold on which the candidate topology fails: either the fit on the
fold's combined training pair fails, or the fit succeeds and the held-out
score fails. -/
def cvFoldFails {M : Type} (env : HMMEnv M) (k : Nat) (seqs : List ObsSeq)
    (f : List Nat × List Nat) : Prop :=
  env.fit k (combine_sequences f.1 seqs).1 (combine_sequences f.1 seqs).2 = none ∨
  ∃ m, env.fit k (combine_sequences f.1 seqs).1 (combine_sequences f.1 seqs).2 = some m ∧
    env.score m (combine_sequences f.2 seqs).1 (combine_sequences f.2 seqs).2 = none

/-- Conclusion of claim C5: any single fold failure disqualifies the whole
candidate topology, and the winner maximizes the mean held-out log-likelihood
over the candidates that succeeded in every fold. -/
def C5Concl {M : Type} (env : HMMEnv M) (sel : ModelSelector) : Prop :=
  (∀ (k : Nat) (folds : List (List Nat × List Nat)), cvFolds sel = some folds →
    (∃ f ∈ folds, cvFoldFails env k sel.sequences f) →
    cvCandidate env sel k = none) ∧
  ((∃ k ∈ componentRange sel, ∃ mq, cvCandidate env sel k = some mq) →
    ∃ k ∈ componentRange sel, ∃ m q, cvCandidate env sel k = some (m, q) ∧
      SelectorCV.select env sel = some m ∧
      ∀ k' ∈ componentRange sel, ∀ m' q',
        cvCandidate env sel k' = some (m', q') → q' ≤ q)

/-- Conclusion of the amended claim C6, for a non-empty model bank: the
recognizer returns, its row list is the item-wise mapping of the test corpus
in canonical order, both outputs have the corpus's item count, every row's key
list is exactly the bank's label list, and the i-th guess is the arg-max of
the i-th item's row. -/
def C6Concl {M : Type} (env : HMMEnv M) (models : List (Label × M))
    (ts : List (Nat × Mat × Lens)) : Prop :=
  ∃ gs, recognize env models ts =
      Except.ok (ts.map (fun t => scoreRow env models t.2.1 t.2.2), gs) ∧
    (ts.map (fun t => scoreRow env models t.2.1 t.2.2)).length = ts.length ∧
    gs.length = ts.length ∧
    (∀ row ∈ ts.map (fun t => scoreRow env models t.2.1 t.2.2),
      row.map Prod.fst = models.map Prod.fst) ∧
    ∀ (i : Nat) (hi : i < gs.length) (ht : i < ts.length),
      argmaxRow (scoreRow env models (ts.get ⟨i, ht⟩).2.1 (ts.get ⟨i, ht⟩).2.2) =
        some (gs.get ⟨i, hi⟩)

/-- Conclusion of claim C9 (amended to non-empty banks): the recognizer
completes with lists of the corpus's item count and every guess is a label of
the model bank. -/
def C9Concl {M : Type} (env : HMMEnv M) (models : List (Label × M))
    (ts : List (Nat × Mat × Lens)) : Prop :=
  ∃ ps gs, recognize env models ts = Except.ok (ps, gs) ∧
    ps.length = ts.length ∧ gs.length = ts.length ∧
    ∀ g ∈ gs, g ∈ models.map Prod.fst

/-- Conclusion of claim C10: a successful CV candidate's returned model is the
one fitted on the training side of the last fold, whose held-out side is
non-empty and disjoint from it — the model is never refit on the full corpus. -/
def C10Concl {M : Type} (env : HMMEnv M) (sel : ModelSelector) (k : Nat) : Prop :=
  ∀ m q, cvCandidate env sel k = some (m, q) →
    ∃ folds f, cvFolds sel = some folds ∧ folds.getLast? = some f ∧
      env.fit k (combine_sequences f.1 sel.sequences).1
        (combine_sequences f.1 sel.sequences).2 = some m ∧
      f.2 ≠ [] ∧ ∀ i ∈ f.2, i ∉ f.1

theorem xlt_irrefl (a : XScore) : XScore.lt a a = false := by
  cases a <;> simp [XScore.lt]

theorem xlt_trans {a b c : XScore} (h1 : XScore.lt a b = true)
    (h2 : XScore.lt b c = true) : XScore.lt a c = true := by
  cases a <;> cases b <;> cases c <;> simp_all [XScore.lt]
  exact lt_trans h1 h2

theorem xlt_asymm {a b : XScore} (h : XScore.lt a b = true) :
    XScore.lt b a = false := by
  cases a <;> cases b <;> simp_all [XScore.lt]
  exact le_of_lt h

theorem xlt_of_not_lt_of_lt {a b c : XScore} (h1 : XScore.lt a b = false)
    (h2 : XScore.lt a c = true) : XScore.lt b c = true := by
  cases a <;> cases b <;> cases c <;> simp_all [XScore.lt]
  exact lt_of_le_of_lt h1 h2

theorem xlt_lt_of_lt_of_nlt {a b s : XScore} (h1 : XScore.lt b s = true)
    (h2 : XScore.lt a s = false) : XScore.lt b a = true := by
  cases a <;> cases b <;> cases s <;> simp_all [XScore.lt]
  exact lt_of_lt_of_le h1 h2

theorem selectLoop_none {M : Type} (cand : Nat → Option (M × ℚ))
    (better : ℚ → XScore → Bool) (acc : Option M × XScore) :
    ∀ ks : List Nat, (∀ k ∈ ks, cand k = none) →
      selectLoop cand better acc ks = acc := by
  intro ks
  induction ks with
  | nil => intro _; rfl
  | cons k ks ih =>
    intro h
    have hk : cand k = none := h k (List.mem_cons_self k ks)
    simpa [selectLoop, hk] using ih (fun k' hk' => h k' (List.mem_cons_of_mem _ hk'))

theorem selectLoop_skip {M : Type} (cand : Nat → Option (M × ℚ))
    (better : ℚ → XScore → Bool) (k0 : Nat) (h0 : cand k0 = none) :
    ∀ (ks : List Nat) (acc : Option M × XScore),
      selectLoop cand better acc (ks.erase k0) =
        selectLoop cand better acc ks := by
  intro ks
  induction ks with
  | nil => intro _; rfl
  | cons k ks ih =>
    intro acc
    by_cases hk : k = k0
    · subst hk
      rw [List.erase_cons_head]
      simp [selectLoop, h0]
    · rw [List.erase_cons_tail]
      · cases hc : cand k with
        | none => simp [selectLoop, hc, ih]
        | some mq =>
          cases mq with
          | mk m q =>
            by_cases hb : better q acc.2 = true <;> simp [selectLoop, hc, hb, ih]
      · simp [hk]

theorem minLoop_spec {M : Type} (cand : Nat → Option (M × ℚ)) :
    ∀ (ks : List Nat) (acc : Option M × XScore),
      (selectLoop cand bicBetter acc ks = acc ∧
        ∀ k ∈ ks, ∀ m q, cand k = some (m, q) →
          XScore.lt (XScore.fin q) acc.2 = false) ∨
      (∃ k ∈ ks, ∃ m q, cand k = some (m, q) ∧
        selectLoop cand bicBetter acc ks = (some m, XScore.fin q) ∧
        XScore.lt (XScore.fin q) acc.2 = true ∧
        ∀ k' ∈ ks, ∀ m' q', cand k' = some (m', q') → q ≤ q') := by
  intro ks
  induction ks with
  | nil =>
    intro acc
    left
    exact ⟨rfl, by simp⟩
  | cons k ks ih =>
    intro acc
    cases hc : cand k with
    | none =>
      rcases ih acc with ⟨h1, h2⟩ | ⟨k2, hk2, m2, q2, hc2, hr, hlt, hmin⟩
      · left
        refine ⟨by simpa [selectLoop, hc] using h1, ?_⟩
        intro k' hk' m' q' hc'
        rcases List.mem_cons.mp hk' with rfl | hk'
        · rw [hc'] at hc; cases hc
        · exact h2 k' hk' m' q' hc'
      · right
        refine ⟨k2, List.mem_cons_of_mem _ hk2, m2, q2, hc2,
          by simpa [selectLoop, hc] using hr, hlt, ?_⟩
        intro k' hk' m' q' hc'
        rcases List.mem_cons.mp hk' with rfl | hk'
        · rw [hc'] at hc; cases hc
        · exact hmin k' hk' m' q' hc'
    | some mq =>
      cases mq with
      | mk m q =>
        by_cases hb : bicBetter q acc.2 = true
        · rcases ih (some m, XScore.fin q) with ⟨h1, h2⟩ |
            ⟨k2, hk2, m2, q2, hc2, hr, hlt2, hmin⟩
          · right
            refine ⟨k, List.mem_cons_self k ks, m, q, hc,
              by simpa [selectLoop, hc, hb] using h1, hb, ?_⟩
            intro k' hk' m' q' hc'
            rcases List.mem_cons.mp hk' with rfl | hk'
            · rw [hc'] at hc
              injection hc with hc
              injection hc with h1' h2'
              exact le_of_eq h2'.symm
            · have := h2 k' hk' m' q' hc'
              simp only [XScore.lt, decide_eq_false_iff_not, not_lt] at this
              exact this
          · right
            have hlt' : XScore.lt (XScore.fin q2) acc.2 = true :=
              xlt_trans hlt2 hb
            refine ⟨k2, List.mem_cons_of_mem _ hk2, m2, q2, hc2,
              by simpa [selectLoop, hc, hb] using hr, hlt', ?_⟩
            intro k' hk' m' q' hc'
            rcases List.mem_cons.mp hk' with rfl | hk'
            · rw [hc'] at hc
              injection hc with hc
              injection hc with h1' h2'
              subst h2'
              simp only [XScore.lt, decide_eq_true_eq] at hlt2
              exact le_of_lt hlt2
            · exact hmin k' hk' m' q' hc'
        · have hb' : bicBetter q acc.2 = false := by
            cases h : bicBetter q acc.2
            · rfl
            · exact absurd h hb
          rcases ih acc with ⟨h1, h2⟩ | ⟨k2, hk2, m2, q2, hc2, hr, hlt, hmin⟩
          · left
            refine ⟨by simpa [selectLoop, hc, hb'] using h1, ?_⟩
            intro k' hk' m' q' hc'
            rcases List.mem_cons.mp hk' with rfl | hk'
            · rw [hc'] at hc
              injection hc with hc
              injection hc with h1' h2'
              subst h2'
              exact hb'
            · exact h2 k' hk' m' q' hc'
          · right
            refine ⟨k2, List.mem_cons_of_mem _ hk2, m2, q2, hc2,
              by simpa [selectLoop, hc, hb'] using hr, hlt, ?_⟩
            intro k' hk' m' q' hc'
            rcases List.mem_cons.mp hk' with rfl | hk'
            · rw [hc'] at hc
              injection hc with hc
              injection hc with h1' h2'
              subst h2'
              have := xlt_lt_of_lt_of_nlt hlt hb'
              simp only [XScore.lt, decide_eq_true_eq] at this
              exact le_of_lt this
            · exact hmin k' hk' m' q' hc'

theorem maxLoop_spec {M : Type} (cand : Nat → Option (M × ℚ)) :
    ∀ (ks : List Nat) (acc : Option M × XScore),
      (selectLoop cand dicBetter acc ks = acc ∧
        ∀ k ∈ ks, ∀ m q, cand k = some (m, q) →
          XScore.lt acc.2 (XScore.fin q) = false) ∨
      (∃ k ∈ ks, ∃ m q, cand k = some (m, q) ∧
        selectLoop cand dicBetter acc ks = (some m, XScore.fin q) ∧
        XScore.lt acc.2 (XScore.fin q) = true ∧
        ∀ k' ∈ ks, ∀ m' q', cand k' = some (m', q') → q' ≤ q) := by
  intro ks
  induction ks with
  | nil =>
    intro acc
    left
    exact ⟨rfl, by simp⟩
  | cons k ks ih =>
    intro acc
    cases hc : cand k with
    | none =>
      rcases ih acc with ⟨h1, h2⟩ | ⟨k2, hk2, m2, q2, hc2, hr, hlt, hmin⟩
      · left
        refine ⟨by simpa [selectLoop, hc] using h1, ?_⟩
        intro k' hk' m' q' hc'
        rcases List.mem_cons.mp hk' with rfl | hk'
        · rw [hc'] at hc; cases hc
        · exact h2 k' hk' m' q' hc'
      · right
        refine ⟨k2, List.mem_cons_of_mem _ hk2, m2, q2, hc2,
          by simpa [selectLoop, hc] using hr, hlt, ?_⟩
        intro k' hk' m' q' hc'
        rcases List.mem_cons.mp hk' with rfl | hk'
        · rw [hc'] at hc; cases hc
        · exact hmin k' hk' m' q' hc'
    | some mq =>
      cases mq with
      | mk m q =>
        by_cases hb : dicBetter q acc.2 = true
        · rcases ih (some m, XScore.fin q) with ⟨h1, h2⟩ |
            ⟨k2, hk2, m2, q2, hc2, hr, hlt2, hmin⟩
          · right
            refine ⟨k, List.mem_cons_self k ks, m, q, hc,
              by simpa [selectLoop, hc, hb] using h1, hb, ?_⟩
            intro k' hk' m' q' hc'
            rcases List.mem_cons.mp hk' with rfl | hk'
            · rw [hc'] at hc
              injection hc with hc
              injection hc with h1' h2'
              exact le_of_eq h2'
            · have := h2 k' hk' m' q' hc'
              simp only [XScore.lt, decide_eq_false_iff_not, not_lt] at this
              exact this
          · right
            have hlt' : XScore.lt acc.2 (XScore.fin q2) = true :=
              xlt_trans hb hlt2
            refine ⟨k2, List.mem_cons_of_mem _ hk2, m2, q2, hc2,
              by simpa [selectLoop, hc, hb] using hr, hlt', ?_⟩
            intro k' hk' m' q' hc'
            rcases List.mem_cons.mp hk' with rfl | hk'
            · rw [hc'] at hc
              injection hc with hc
              injection hc with h1' h2'
              subst h2'
              simp only [XScore.lt, decide_eq_true_eq] at hlt2
              exact le_of_lt hlt2
            · exact hmin k' hk' m' q' hc'
        · have hb' : dicBetter q acc.2 = false := by
            cases h : dicBetter q acc.2
            · rfl
            · exact absurd h hb
          rcases ih acc with ⟨h1, h2⟩ | ⟨k2, hk2, m2, q2, hc2, hr, hlt, hmin⟩
          · left
            refine ⟨by simpa [selectLoop, hc, hb'] using h1, ?_⟩
            intro k' hk' m' q' hc'
            rcases List.mem_cons.mp hk' with rfl | hk'
            · rw [hc'] at hc
              injection hc with hc
              injection hc with h1' h2'
              subst h2'
              exact hb'
            · exact h2 k' hk' m' q' hc'
          · right
            refine ⟨k2, List.mem_cons_of_mem _ hk2, m2, q2, hc2,
              by simpa [selectLoop, hc, hb'] using hr, hlt, ?_⟩
            intro k' hk' m' q' hc'
            rcases List.mem_cons.mp hk' with rfl | hk'
            · rw [hc'] at hc
              injection hc with hc
              injection hc with h1' h2'
              subst h2'
              have := xlt_of_not_lt_of_lt hb' hlt
              simp only [XScore.lt, decide_eq_true_eq] at this
              exact le_of_lt this
            · exact hmin k' hk' m' q' hc'

theorem argmaxGo_mem : ∀ (rest : List (Label × XScore)) (w : Label) (s : XScore),
    argmaxGo w s rest ∈ w :: rest.map Prod.fst := by
  intro rest
  induction rest with
  | nil => intro w s; exact List.mem_cons_self _ _
  | cons e rest ih =>
    intro w s
    by_cases hlt : XScore.lt s e.2 = true
    · have hred : argmaxGo w s (e :: rest) = argmaxGo e.1 e.2 rest := by
        simp [argmaxGo, hlt]
      rw [hred]
      exact List.mem_cons_of_mem _ (ih e.1 e.2)
    · have hlt' : XScore.lt s e.2 = false := by
        cases h : XScore.lt s e.2
        · rfl
        · exact absurd h hlt
      have hred : argmaxGo w s (e :: rest) = argmaxGo w s rest := by
        simp [argmaxGo, hlt']
      rw [hred]
      rcases List.mem_cons.mp (ih w s) with h | h
      · rw [h]
        exact List.mem_cons_self _ _
      · exact List.mem_cons_of_mem _ (List.mem_cons_of_mem _ h)

theorem argmaxGo_spec : ∀ (rest : List (Label × XScore)) (w : Label) (s : XScore),
    (argmaxGo w s rest = w ∧ ∀ e ∈ rest, XScore.lt s e.2 = false) ∨
    (∃ (j : Nat) (hj : j < rest.length) (t : XScore),
      rest.get ⟨j, hj⟩ = (argmaxGo w s rest, t) ∧
      XScore.lt s t = true ∧
      (∀ e ∈ rest, XScore.lt t e.2 = false) ∧
      ∀ (j' : Nat) (hj' : j' < j),
        XScore.lt (rest.get ⟨j', Nat.lt_trans hj' hj⟩).2 t = true) := by
  intro rest
  induction rest with
  | nil => intro w s; left; exact ⟨rfl, by simp⟩
  | cons e rest ih =>
    intro w s
    by_cases hlt : XScore.lt s e.2 = true
    · have hred : argmaxGo w s (e :: rest) = argmaxGo e.1 e.2 rest := by
        simp [argmaxGo, hlt]
      rcases ih e.1 e.2 with ⟨ha, hall⟩ | ⟨j, hj, t, hget, hst, hmax, hpre⟩
      · right
        refine ⟨0, by simp, e.2, ?_, hlt, ?_, ?_⟩
        · show e = (argmaxGo w s (e :: rest), e.2)
          rw [hred, ha]
        · intro e' he'
          rcases List.mem_cons.mp he' with rfl | he'
          · exact xlt_irrefl _
          · exact hall e' he'
        · intro j' hj'
          exact absurd hj' (Nat.not_lt_zero _)
      · right
        refine ⟨j + 1, Nat.succ_lt_succ hj, t, ?_, xlt_trans hlt hst, ?_, ?_⟩
        · show rest.get ⟨j, hj⟩ = (argmaxGo w s (e :: rest), t)
          rw [hred]
          exact hget
        · intro e' he'
          rcases List.mem_cons.mp he' with rfl | he'
          · exact xlt_asymm hst
          · exact hmax e' he'
        · intro j' hj'
          cases j' with
          | zero => exact hst
          | succ n => exact hpre n (Nat.lt_of_succ_lt_succ hj')
    · have hlt' : XScore.lt s e.2 = false := by
        cases h : XScore.lt s e.2
        · rfl
        · exact absurd h hlt
      have hred : argmaxGo w s (e :: rest) = argmaxGo w s rest := by
        simp [argmaxGo, hlt']
      rcases ih w s with ⟨ha, hall⟩ | ⟨j, hj, t, hget, hst, hmax, hpre⟩
      · left
        refine ⟨hred.trans ha, ?_⟩
        intro e' he'
        rcases List.mem_cons.mp he' with rfl | he'
        · exact hlt'
        · exact hall e' he'
      · right
        refine ⟨j + 1, Nat.succ_lt_succ hj, t, ?_, hst, ?_, ?_⟩
        · show rest.get ⟨j, hj⟩ = (argmaxGo w s (e :: rest), t)
          rw [hred]
          exact hget
        · intro e' he'
          rcases List.mem_cons.mp he' with rfl | he'
          · cases h : XScore.lt t e'.2
            · rfl
            · have := xlt_trans hst h
              rw [this] at hlt'
              cases hlt'
          · exact hmax e' he'
        · intro j' hj'
          cases j' with
          | zero => exact xlt_of_not_lt_of_lt hlt' hst
          | succ n => exact hpre n (Nat.lt_of_succ_lt_succ hj')

theorem argmaxRow_spec (row : List (Label × XScore)) (g : Label)
    (hg : argmaxRow row = some g) :
    ∃ (j : Nat) (hj : j < row.length),
      (row.get ⟨j, hj⟩).1 = g ∧
      (∀ e ∈ row, XScore.lt (row.get ⟨j, hj⟩).2 e.2 = false) ∧
      ∀ (j' : Nat) (hj' : j' < j),
        XScore.lt (row.get ⟨j', Nat.lt_trans hj' hj⟩).2 (row.get ⟨j, hj⟩).2 = true := by
  cases row with
  | nil => cases hg
  | cons e rest =>
    have hg' : argmaxGo e.1 e.2 rest = g := by
      have : some (argmaxGo e.1 e.2 rest) = some g := hg
      injection this
    rcases argmaxGo_spec rest e.1 e.2 with ⟨ha, hall⟩ | ⟨j, hj, t, hget, hst, hmax, hpre⟩
    · refine ⟨0, by simp, ?_, ?_, ?_⟩
      · show e.1 = g
        rw [← hg', ha]
      · intro e' he'
        rcases List.mem_cons.mp he' with rfl | he'
        · exact xlt_irrefl _
        · exact hall e' he'
      · intro j' hj'
        exact absurd hj' (Nat.not_lt_zero _)
    · rw [hg'] at hget
      refine ⟨j + 1, Nat.succ_lt_succ hj, ?_, ?_, ?_⟩
      · show (rest.get ⟨j, hj⟩).1 = g
        rw [hget]
      · intro e' he'
        have h2 : ((e :: rest).get ⟨j + 1, Nat.succ_lt_succ hj⟩).2 = t := by
          show (rest.get ⟨j, hj⟩).2 = t
          rw [hget]
        rw [h2]
        rcases List.mem_cons.mp he' with rfl | he'
        · exact xlt_asymm hst
        · exact hmax e' he'
      · intro j' hj'
        have h2 : ((e :: rest).get ⟨j + 1, Nat.succ_lt_succ hj⟩).2 = t := by
          show (rest.get ⟨j, hj⟩).2 = t
          rw [hget]
        rw [h2]
        cases j' with
        | zero => exact hst
        | succ n => exact hpre n (Nat.lt_of_succ_lt_succ hj')

theorem argmaxRow_mem (row : List (Label × XScore)) (g : Label)
    (hg : argmaxRow row = some g) : g ∈ row.map Prod.fst := by
  cases row with
  | nil => cases hg
  | cons e rest =>
    have hg' : argmaxGo e.1 e.2 rest = g := by
      have : some (argmaxGo e.1 e.2 rest) = some g := hg
      injection this
    have := argmaxGo_mem rest e.1 e.2
    rw [hg'] at this
    simpa using this

theorem scoreRow_fst {M : Type} (env : HMMEnv M) (models : List (Label × M))
    (X : Mat) (l : Lens) :
    (scoreRow env models X l).map Prod.fst = models.map Prod.fst := by
  simp [scoreRow, List.map_map]

theorem recognize_ok {M : Type} (env : HMMEnv M) (models : List (Label × M))
    (hm : models ≠ []) :
    ∀ ts : List (Nat × Mat × Lens), ∃ gs : List Label,
      recognize env models ts =
        Except.ok (ts.map (fun t => scoreRow env models t.2.1 t.2.2), gs) ∧
      gs.length = ts.length ∧
      ∀ (i : Nat) (hi : i < gs.length) (ht : i < ts.length),
        argmaxRow (scoreRow env models (ts.get ⟨i, ht⟩).2.1 (ts.get ⟨i, ht⟩).2.2) =
          some (gs.get ⟨i, hi⟩) := by
  intro ts
  induction ts with
  | nil =>
    refine ⟨[], rfl, rfl, ?_⟩
    intro i hi
    exact absurd hi (Nat.not_lt_zero _)
  | cons t ts ih =>
    obtain ⟨gs, h1, h2, h3⟩ := ih
    obtain ⟨m0, ms, rfl⟩ : ∃ m0 ms, models = m0 :: ms := by
      cases models with
      | nil => exact absurd rfl hm
      | cons m0 ms => exact ⟨m0, ms, rfl⟩
    obtain ⟨g, hg⟩ : ∃ g, argmaxRow (scoreRow env (m0 :: ms) t.2.1 t.2.2) = some g :=
      ⟨_, rfl⟩
    refine ⟨g :: gs, ?_, by simpa using h2, ?_⟩
    · show recognize env (m0 :: ms) (t :: ts) = _
      simp [recognize, hg, h1]
    · intro i hi ht
      cases i with
      | zero => exact hg
      | succ n => exact h3 n (Nat.lt_of_succ_lt_succ hi) (Nat.lt_of_succ_lt_succ ht)

theorem recognize_error_iff {M : Type} (env : HMMEnv M)
    (models : List (Label × M)) :
    ∀ ts : List (Nat × Mat × Lens),
      recognize env models ts = Except.error () ↔ models = [] ∧ ts ≠ [] := by
  intro ts
  cases hm : models with
  | nil =>
    cases ts with
    | nil => simp [recognize]
    | cons t ts => simp [recognize, scoreRow, argmaxRow]
  | cons m0 ms =>
    obtain ⟨gs, h1, _, _⟩ := recognize_ok env (m0 :: ms) (by simp) ts
    rw [h1]
    simp

theorem runFolds_fail {M : Type} (env : HMMEnv M) (k : Nat) (seqs : List ObsSeq) :
    ∀ folds : List (List Nat × List Nat),
      (∃ f ∈ folds, cvFoldFails env k seqs f) →
      runFolds env k seqs folds = none := by
  intro folds
  induction folds with
  | nil => rintro ⟨f, hf, _⟩; cases hf
  | cons f fs ih =>
    rintro ⟨f0, hf0, hfail⟩
    cases fs with
    | nil =>
      have hf : f0 = f := List.mem_singleton.mp hf0
      subst hf
      rcases hfail with hfit | ⟨m, hfit, hscore⟩
      · simp [runFolds, hfit]
      · simp [runFolds, hfit, hscore]
    | cons f2 fs2 =>
      rcases List.mem_cons.mp hf0 with rfl | hmem
      · rcases hfail with hfit | ⟨m, hfit, hscore⟩
        · simp [runFolds, hfit]
        · simp [runFolds, hfit, hscore]
      · have hrest : runFolds env k seqs (f2 :: fs2) = none := ih ⟨f0, hmem, hfail⟩
        cases hfit : env.fit k (combine_sequences f.1 seqs).1 (combine_sequences f.1 seqs).2 with
        | none => simp [runFolds, hfit]
        | some m =>
          cases hs : env.score m (combine_sequences f.2 seqs).1 (combine_sequences f.2 seqs).2 with
          | none => simp [runFolds, hfit, hs]
          | some s => simp [runFolds, hfit, hs, hrest]

theorem runFolds_last {M : Type} (env : HMMEnv M) (k : Nat) (seqs : List ObsSeq) :
    ∀ (folds : List (List Nat × List Nat)) (ss : List ℚ) (m : M),
      runFolds env k seqs folds = some (ss, m) →
      ∃ f, folds.getLast? = some f ∧
        env.fit k (combine_sequences f.1 seqs).1 (combine_sequences f.1 seqs).2 = some m := by
  intro folds
  induction folds with
  | nil => intro ss m h; cases h
  | cons f fs ih =>
    intro ss m h
    cases fs with
    | nil =>
      cases hfit : env.fit k (combine_sequences f.1 seqs).1 (combine_sequences f.1 seqs).2 with
      | none =>
        have hrun : runFolds env k seqs [f] = none := by simp [runFolds, hfit]
        rw [hrun] at h
        cases h
      | some m' =>
        cases hs : env.score m' (combine_sequences f.2 seqs).1 (combine_sequences f.2 seqs).2 with
        | none =>
          have hrun : runFolds env k seqs [f] = none := by simp [runFolds, hfit, hs]
          rw [hrun] at h
          cases h
        | some s =>
          have hrun : runFolds env k seqs [f] = some ([s], m') := by
            simp [runFolds, hfit, hs]
          rw [hrun] at h
          injection h with h'
          have hm : m' = m := congrArg Prod.snd h'
          exact ⟨f, rfl, hm ▸ hfit⟩
    | cons f2 fs2 =>
      cases hfit : env.fit k (combine_sequences f.1 seqs).1 (combine_sequences f.1 seqs).2 with
      | none =>
        have hrun : runFolds env k seqs (f :: f2 :: fs2) = none := by
          simp [runFolds, hfit]
        rw [hrun] at h
        cases h
      | some m' =>
        cases hs : env.score m' (combine_sequences f.2 seqs).1 (combine_sequences f.2 seqs).2 with
        | none =>
          have hrun : runFolds env k seqs (f :: f2 :: fs2) = none := by
            simp [runFolds, hfit, hs]
          rw [hrun] at h
          cases h
        | some s =>
          cases hrest : runFolds env k seqs (f2 :: fs2) with
          | none =>
            have hrun : runFolds env k seqs (f :: f2 :: fs2) = none := by
              simp [runFolds, hfit, hs, hrest]
            rw [hrun] at h
            cases h
          | some r =>
            have hrun : runFolds env k seqs (f :: f2 :: fs2) = some (s :: r.1, r.2) := by
              simp [runFolds, hfit, hs, hrest]
            rw [hrun] at h
            injection h with h'
            have hm : r.2 = m := congrArg Prod.snd h'
            obtain ⟨f', hf', hfit'⟩ := ih r.1 r.2 (by rw [hrest])
            rw [List.getLast?_cons_cons]
            exact ⟨f', hf', hm ▸ hfit'⟩

theorem kFoldSplit_mem (a b : Nat) (folds : List (List Nat × List Nat))
    (h : kFoldSplit a b = some folds) :
    ∀ f ∈ folds, f.2 ≠ [] ∧ ∀ i ∈ f.2, i ∉ f.1 := by
  rw [kFoldSplit] at h
  by_cases hc : a < 2 ∨ b < a
  · rw [if_pos hc] at h; cases h
  · rw [if_neg hc] at h
    have hfolds : folds = (List.range a).map (fun i =>
        let test := foldTestIdx (b / a) (b % a) i
        (foldTrainIdx b test, test)) := by
      injection h with h'
      exact h'.symm
    subst hfolds
    intro f hf
    obtain ⟨i, _, hfi⟩ := List.mem_map.mp hf
    constructor
    · rw [← hfi]
      show foldTestIdx (b / a) (b % a) i ≠ []
      rw [foldTestIdx]
      intro hnil
      have hlen : b / a + (if i < b % a then 1 else 0) = 0 := List.range'_eq_nil.mp hnil
      have hdiv : 1 ≤ b / a := by
        have ha : 0 < a := by omega
        exact (Nat.one_le_div_iff ha).mpr (by omega)
      omega
    · rw [← hfi]
      intro j hj hj'
      show False
      have := List.mem_filter.mp hj'
      rw [decide_eq_true_eq] at this
      exact this.2 hj

/-- C3: for every test item and every bank label, a score failure is recorded
as log-likelihood `-inf` for that (item, label) entry of the item's score row;
and the only exception `recognize` can raise is the empty-bank `ValueError`,
characterized by a condition independent of the scoring oracle — so no
fit/score failure ever propagates out of `recognize` as a thrown exception. -/
theorem C3_score_failure_recorded_ninf {M : Type} (env : HMMEnv M)
    (models : List (Label × M)) :
    (∀ (X : Mat) (l : Lens) (w : Label) (m : M), (w, m) ∈ models →
      env.score m X l = none → (w, XScore.ninf) ∈ scoreRow env models X l) ∧
    (∀ ts : List (Nat × Mat × Lens),
      recognize env models ts = Except.error () ↔ models = [] ∧ ts ≠ []) := by
  constructor
  · intro X l w m hmem hscore
    refine List.mem_map.mpr ⟨(w, m), hmem, ?_⟩
    simp [hscore]
  · exact recognize_error_iff env models

/-- Witness for C3 at a concrete input: the bank word "B" cannot score the
test item `[[5]]` under `envW3`, and its row entry is `-inf`. -/
theorem C3_witness :
    ((("B" : Label), (2 : Nat)) ∈ modelsW3 ∧
      envW3.score 2 [[5]] [1] = none) ∧
    (("B" : Label), XScore.ninf) ∈ scoreRow envW3 modelsW3 [[5]] [1] :=
  ⟨⟨by decide, by decide⟩,
    (C3_score_failure_recorded_ninf envW3 modelsW3).1 [[5]] [1] "B" 2
      (by decide) (by decide)⟩

/-- C6 counterexample: with an empty model bank (every label's fits failed)
and a non-empty test corpus, `recognize` raises the `ValueError` of `max` over
an empty `scores` dict instead of returning its two lists, so the claim's
universal quantification over every `ModelBank` fails at this input. -/
theorem C6_counterexample :
    recognize envA ([] : List (Label × Nat)) [(0, ([[1]], [1]))] =
      Except.error () := rfl

/-- C6 amended: for every non-empty model bank, `recognize` returns two lists
in the test corpus's canonical item order, both of the corpus's item count,
with every row's key list exactly the bank's label list and the i-th guess the
arg-max of the i-th row. -/
theorem C6_output_shape {M : Type} (env : HMMEnv M)
    (models : List (Label × M)) (ts : List (Nat × Mat × Lens))
    (hm : models ≠ []) : C6Concl env models ts := by
  obtain ⟨gs, h1, h2, h3⟩ := recognize_ok env models hm ts
  refine ⟨gs, h1, by simp, h2, ?_, h3⟩
  intro row hrow
  obtain ⟨t, _, rfl⟩ := List.mem_map.mp hrow
  exact scoreRow_fst env models _ _

/-- Witness for C6 at a concrete two-word bank and two-item corpus. -/
theorem C6_witness : modelsW6 ≠ [] ∧ C6Concl envA modelsW6 tsW6 :=
  ⟨by decide, C6_output_shape envA modelsW6 tsW6 (by decide)⟩

/-- C7: whenever `recognize` returns, each item's guess is the entry of that
item's score row holding the maximal score, and among equal maxima the first
one in the row's iteration order. -/
theorem C7_guess_first_max {M : Type} (env : HMMEnv M)
    (models : List (Label × M)) (ts : List (Nat × Mat × Lens)) :
    ∀ ps gs, recognize env models ts = Except.ok (ps, gs) →
      gs.length = ps.length ∧
      ∀ (i : Nat) (hi : i < gs.length) (hp : i < ps.length),
        ∃ (j : Nat) (hj : j < (ps.get ⟨i, hp⟩).length),
          ((ps.get ⟨i, hp⟩).get ⟨j, hj⟩).1 = gs.get ⟨i, hi⟩ ∧
          (∀ e ∈ ps.get ⟨i, hp⟩,
            XScore.lt ((ps.get ⟨i, hp⟩).get ⟨j, hj⟩).2 e.2 = false) ∧
          ∀ (j' : Nat) (hj' : j' < j),
            XScore.lt ((ps.get ⟨i, hp⟩).get ⟨j', Nat.lt_trans hj' hj⟩).2
              ((ps.get ⟨i, hp⟩).get ⟨j, hj⟩).2 = true := by
  intro ps gs hok
  cases models with
  | nil =>
    cases ts with
    | nil =>
      have h0 : Except.ok (ε := Unit) (([] : List (List (Label × XScore))),
          ([] : List Label)) = Except.ok (ps, gs) := hok
      injection h0 with h0'
      have hps : ps = [] := (congrArg Prod.fst h0').symm
      have hgs : gs = [] := (congrArg Prod.snd h0').symm
      subst hps
      subst hgs
      refine ⟨rfl, ?_⟩
      intro i hi
      exact absurd hi (Nat.not_lt_zero _)
    | cons t ts' =>
      have herr : recognize env ([] : List (Label × M)) (t :: ts') =
          Except.error () :=
        (recognize_error_iff env [] (t :: ts')).mpr ⟨rfl, by simp⟩
      rw [herr] at hok
      cases hok
  | cons m0 ms =>
    obtain ⟨gs', h1, h2, h3⟩ := recognize_ok env (m0 :: ms) (by simp) ts
    rw [h1] at hok
    injection hok with hok'
    have hps : ps = ts.map (fun t => scoreRow env (m0 :: ms) t.2.1 t.2.2) :=
      (congrArg Prod.fst hok').symm
    have hgs : gs = gs' := (congrArg Prod.snd hok').symm
    subst hps
    subst hgs
    refine ⟨by simp [h2], ?_⟩
    intro i hi hp
    have ht : i < ts.length := by simpa using hp
    have hget : (List.map (fun t => scoreRow env (m0 :: ms) t.2.1 t.2.2) ts).get ⟨i, hp⟩ =
        scoreRow env (m0 :: ms) (ts.get ⟨i, ht⟩).2.1 (ts.get ⟨i, ht⟩).2.2 := by
      simp [List.get_eq_getElem, List.getElem_map]
    rw [hget]
    exact argmaxRow_spec _ _ (h3 i hi ht)

/-- Witness for C7 at a concrete run: under `envA`, item `[[4]]` gets row
`[("A", 1), ("B", 2)]` and guess "B", the first (here unique) maximum. -/
theorem C7_witness :
    recognize envA modelsW7 tsW7 = Except.ok ([rowW7], ["B"]) ∧
    (∃ (j : Nat) (hj : j < rowW7.length),
      (rowW7.get ⟨j, hj⟩).1 = "B" ∧
      (∀ e ∈ rowW7, XScore.lt (rowW7.get ⟨j, hj⟩).2 e.2 = false) ∧
      ∀ (j' : Nat) (hj' : j' < j),
        XScore.lt (rowW7.get ⟨j', Nat.lt_trans hj' hj⟩).2
          (rowW7.get ⟨j, hj⟩).2 = true) :=
  ⟨rfl, (C7_guess_first_max envA modelsW7 tsW7 [rowW7] ["B"] rfl).2 0
    (by decide) (by decide)⟩

/-- C9 counterexample: an empty model bank (as arises when every label's every
topology fails to fit) with a non-empty test corpus makes `recognize` raise,
so the claim's quantification over every smaller-than-vocabulary bank fails. -/
theorem C9_counterexample :
    recognize envA ([] : List (Label × Nat))
      [(0, ([[5]], [1])), (1, ([[6]], [1]))] = Except.error () := rfl

/-- C9 amended: for every non-empty model bank and any test corpus,
`recognize` completes with lists of the corpus's item count and never guesses
a label absent from the bank. -/
theorem C9_no_crash_nonempty_bank {M : Type} (env : HMMEnv M)
    (models : List (Label × M)) (ts : List (Nat × Mat × Lens))
    (hm : models ≠ []) : C9Concl env models ts := by
  obtain ⟨gs, h1, h2, h3⟩ := recognize_ok env models hm ts
  refine ⟨_, gs, h1, by simp, h2, ?_⟩
  intro g hg
  obtain ⟨n, hn⟩ := List.mem_iff_get.mp hg
  have ht : (n : Nat) < ts.length := h2 ▸ n.2
  have harg := h3 n.1 n.2 ht
  have hmem := argmaxRow_mem _ _ harg
  rw [scoreRow_fst] at hmem
  rw [← hn]
  exact hmem

/-- Witness for C9 at a concrete one-word bank. -/
theorem C9_witness : modelsW9 ≠ [] ∧ C9Concl envA modelsW9 tsW9 :=
  ⟨by decide, C9_no_crash_nonempty_bank envA modelsW9 tsW9 (by decide)⟩

/-- C1: for a label whose concatenated matrix has first row `row0` (so
`n_features = row0.length`), SelectorBIC computes the stated BIC for every
candidate that fits and self-scores, starts the running best from the
constant-topology fallback with best score `+inf`, and returns a
successfully-scored candidate of minimal BIC when one exists. -/
theorem C1_bic_criterion {M : Type} (env : HMMEnv M) (logfn : Nat → ℚ)
    (sel : ModelSelector) (row0 : List ℚ) (rows : Mat)
    (hX : sel.X = row0 :: rows) : C1Concl env logfn sel row0 := by
  have hsel : SelectorBIC.select env logfn sel =
      Except.ok (selectLoop (bicCandidate env logfn sel row0.length) bicBetter
        (base_model env sel sel.n_constant, XScore.pinf) (componentRange sel)).1 := by
    unfold SelectorBIC.select
    rw [hX]
  refine ⟨?_, ?_, ?_⟩
  · intro k m logL hfit hscore
    simp [bicCandidate, hfit, hscore]
  · intro hall
    rw [hsel, selectLoop_none _ _ _ _ hall]
  · rintro ⟨k0, hk0, mq0, hmq0⟩
    rcases minLoop_spec (bicCandidate env logfn sel row0.length)
        (componentRange sel) (base_model env sel sel.n_constant, XScore.pinf) with
      ⟨h1, h2⟩ | ⟨k, hk, m, q, hc, hr, _, hmin⟩
    · exfalso
      have := h2 k0 hk0 mq0.1 mq0.2 (by rw [hmq0])
      simp [XScore.lt] at this
    · refine ⟨k, hk, m, q, hc, ?_, hmin⟩
      rw [hsel, hr]

/-- Witness for C1 at a concrete corpus and all-succeeding oracle. -/
theorem C1_witness :
    selW1.X = [[(0 : ℚ)]] ∧ C1Concl envA logfn1 selW1 [(0 : ℚ)] :=
  ⟨rfl, C1_bic_criterion envA logfn1 selW1 [(0 : ℚ)] [] rfl⟩

/-- C2 counterexample: under `envC2`/`selC2`, topology 2 fits and self-scores,
competing word "C" scores but competing word "B" fails; the claim says the
candidate's DIC is still computed from the remaining labels, yet the code
aborts the whole candidate (`dicCandidate ... = none`) and `select` falls back
to the constant-topology model 99 instead of the fitted candidate 2. -/
theorem C2_counterexample :
    envC2.fit 2 selC2.X selC2.lengths = some 2 ∧
    envC2.score 2 selC2.X selC2.lengths = some 0 ∧
    envC2.score 2 [[1]] [1] = none ∧
    envC2.score 2 [[2]] [1] = some 0 ∧
    ("B", ([[1]], [1])) ∈ selC2.hwords ∧
    ("C", ([[2]], [1])) ∈ selC2.hwords ∧
    dicCandidate envC2 selC2 2 = none ∧
    SelectorDIC.select envC2 selC2 = some 99 := by decide

/-- C2 amended: in SelectorDIC a failure anywhere in the competing-word loop
aborts that candidate topology's evaluation wholesale, and a skipped candidate
leaves the selection over the remaining topologies unchanged. -/
theorem C2_competing_failure_aborts_candidate {M : Type} (env : HMMEnv M)
    (sel : ModelSelector) (k : Nat) : C2Concl env sel k := by
  constructor
  · intro m hfit hsc
    cases hs : env.score m sel.X sel.lengths with
    | none => simp [dicCandidate, hfit, hs]
    | some logL => simp [dicCandidate, hfit, hs, hsc]
  · intro hc
    unfold SelectorDIC.select
    rw [selectLoop_skip (dicCandidate env sel) dicBetter k hc]

/-- Witness for C2 at the concrete `envC2`/`selC2` instance. -/
theorem C2_witness :
    (envC2.fit 2 selC2.X selC2.lengths = some 2 ∧
      scoreCompeting envC2 2 selC2 selC2.words = none ∧
      dicCandidate envC2 selC2 2 = none) ∧
    SelectorDIC.select envC2 selC2 =
      (selectLoop (dicCandidate envC2 selC2) dicBetter
        (base_model envC2 selC2 selC2.n_constant, XScore.ninf)
        ((componentRange selC2).erase 2)).1 :=
  ⟨⟨by decide, by decide,
    (C2_competing_failure_aborts_candidate envC2 selC2 2).1 2 (by decide) (by decide)⟩,
    (C2_competing_failure_aborts_candidate envC2 selC2 2).2 (by decide)⟩

/-- C4 counterexample: on a corpus with exactly one sequence the claim demands
a partition into `min(3, 1) = 1` fold, but sklearn `KFold` rejects
`n_splits=1`, so no partition is produced, every candidate topology is skipped
and `select` returns the constant fallback. -/
theorem C4_counterexample :
    selC4.sequences.length = 1 ∧
    min 3 selC4.sequences.length = 1 ∧
    cvFolds selC4 = none ∧
    cvCandidate envA selC4 2 = none ∧
    SelectorCV.select envA selC4 = some 3 := by decide

/-- C4 amended: for every corpus with at least two sequences (and consistent
`sequences`/`lengths` bookkeeping), SelectorCV partitions the sequence indices
into exactly `min(3, number of sequences)` folds, each with a non-empty
held-out block disjoint from its training block. -/
theorem C4_fold_count (sel : ModelSelector) (h2 : 2 ≤ sel.sequences.length)
    (heq : sel.lengths.length = sel.sequences.length) :
    ∃ folds, cvFolds sel = some folds ∧
      folds.length = min 3 sel.sequences.length ∧
      ∀ f ∈ folds, f.2 ≠ [] ∧ ∀ i ∈ f.2, i ∉ f.1 := by
  have hcond : ¬ (min 3 sel.sequences.length < 2 ∨
      sel.sequences.length < min 3 sel.sequences.length) := by omega
  have hsp : kFoldSplit (min 3 sel.sequences.length) sel.sequences.length =
      some ((List.range (min 3 sel.sequences.length)).map (fun i =>
        let test := foldTestIdx (sel.sequences.length / min 3 sel.sequences.length)
          (sel.sequences.length % min 3 sel.sequences.length) i
        (foldTrainIdx sel.sequences.length test, test))) := by
    rw [kFoldSplit, if_neg hcond]
  refine ⟨_, ?_, by simp, kFoldSplit_mem _ _ _ hsp⟩
  rw [cvFolds, heq]
  exact hsp

/-- Witness for C4 at a two-sequence corpus: `min(3, 2) = 2` folds. -/
theorem C4_witness :
    (2 ≤ selW4.sequences.length ∧
      selW4.lengths.length = selW4.sequences.length) ∧
    (∃ folds, cvFolds selW4 = some folds ∧
      folds.length = min 3 selW4.sequences.length ∧
      ∀ f ∈ folds, f.2 ≠ [] ∧ ∀ i ∈ f.2, i ∉ f.1) :=
  ⟨⟨by decide, by decide⟩, C4_fold_count selW4 (by decide) (by decide)⟩

/-- C5: a fit or score failure in any single fold disqualifies that candidate
topology entirely (it contributes no partial mean), while the remaining
topologies are still evaluated and the winner maximizes the mean held-out
log-likelihood among candidates that succeeded in every fold. -/
theorem C5_fold_failure_disqualifies {M : Type} (env : HMMEnv M)
    (sel : ModelSelector) : C5Concl env sel := by
  constructor
  · intro k folds hfolds hex
    have hrf : runFolds env k sel.sequences folds = none :=
      runFolds_fail env k sel.sequences folds hex
    simp [cvCandidate, hfolds, hrf]
  · rintro ⟨k0, hk0, mq0, hmq0⟩
    rcases maxLoop_spec (cvCandidate env sel) (componentRange sel)
        (base_model env sel sel.n_constant, XScore.ninf) with
      ⟨h1, h2⟩ | ⟨k, hk, m, q, hc, hr, _, hmax⟩
    · exfalso
      have := h2 k0 hk0 mq0.1 mq0.2 (by rw [hmq0])
      simp [XScore.lt] at this
    · refine ⟨k, hk, m, q, hc, ?_, hmax⟩
      unfold SelectorCV.select
      rw [hr]

/-- Witness for C5: under `envC5` the first CV fold's training fit fails and
the whole candidate topology is disqualified. -/
theorem C5_witness :
    cvFolds selW5 = some [([1], [0]), ([0], [1])] ∧
    cvFoldFails envC5 2 selW5.sequences ([1], [0]) ∧
    cvCandidate envC5 selW5 2 = none :=
  ⟨by decide, Or.inl (by decide),
    (C5_fold_failure_disqualifies envC5 selW5).1 2 [([1], [0]), ([0], [1])]
      (by decide) ⟨([1], [0]), by decide, Or.inl (by decide)⟩⟩

/-- C8: each criterion strategy's loop covers exactly the inclusive range
`[min_n_components, max_n_components]`, a fit failure skips the candidate, and
when every candidate in the range fails, `select` returns the constant-states
fallback fit — which is itself `none` when that fit fails too. -/
theorem C8_range_and_fallback {M : Type} (env : HMMEnv M) (logfn : Nat → ℚ)
    (sel : ModelSelector) :
    (∀ k : Nat, k ∈ componentRange sel ↔
      sel.min_n_components ≤ k ∧ k ≤ sel.max_n_components) ∧
    (∀ k : Nat, env.fit k sel.X sel.lengths = none →
      dicCandidate env sel k = none ∧
      ∀ d : Nat, bicCandidate env logfn sel d k = none) ∧
    ((∀ k ∈ componentRange sel, dicCandidate env sel k = none) →
      SelectorDIC.select env sel = base_model env sel sel.n_constant) ∧
    ((∀ k ∈ componentRange sel, cvCandidate env sel k = none) →
      SelectorCV.select env sel = base_model env sel sel.n_constant) ∧
    (∀ (row0 : List ℚ) (rows : Mat), sel.X = row0 :: rows →
      (∀ k ∈ componentRange sel, bicCandidate env logfn sel row0.length k = none) →
      SelectorBIC.select env logfn sel =
        Except.ok (base_model env sel sel.n_constant)) := by
  refine ⟨?_, ?_, ?_, ?_, ?_⟩
  · intro k
    rw [componentRange, rangeList, List.mem_range'_1]
    omega
  · intro k hfit
    exact ⟨by simp [dicCandidate, hfit], fun d => by simp [bicCandidate, hfit]⟩
  · intro hall
    unfold SelectorDIC.select
    rw [selectLoop_none _ _ _ _ hall]
  · intro hall
    unfold SelectorCV.select
    rw [selectLoop_none _ _ _ _ hall]
  · intro row0 rows hX hall
    have hsel : SelectorBIC.select env logfn sel =
        Except.ok (selectLoop (bicCandidate env logfn sel row0.length) bicBetter
          (base_model env sel sel.n_constant, XScore.pinf) (componentRange sel)).1 := by
      unfold SelectorBIC.select
      rw [hX]
    rw [hsel, selectLoop_none _ _ _ _ hall]

/-- Witness for C8: under `envW8` every topology in `[2, 3]` fails to fit and
both DIC and CV return the constant fallback model. -/
theorem C8_witness :
    (∀ k ∈ componentRange selW8, dicCandidate envW8 selW8 k = none) ∧
    SelectorDIC.select envW8 selW8 = some 99 ∧
    (∀ k ∈ componentRange selW8, cvCandidate envW8 selW8 k = none) ∧
    SelectorCV.select envW8 selW8 = some 99 :=
  ⟨by decide,
    ((C8_range_and_fallback envW8 logfn1 selW8).2.2.1 (by decide)).trans (by decide),
    by decide,
    ((C8_range_and_fallback envW8 logfn1 selW8).2.2.2.1 (by decide)).trans (by decide)⟩

/-- C10: when a CV candidate succeeds, the model it carries is the one fitted
on the training side of the final fold — never a refit on the full corpus: the
final fold's non-empty held-out block is disjoint from that training block. -/
theorem C10_cv_returns_last_fold_model {M : Type} (env : HMMEnv M)
    (sel : ModelSelector) (k : Nat) : C10Concl env sel k := by
  intro m q hc
  cases hfolds : cvFolds sel with
  | none => simp [cvCandidate, hfolds] at hc
  | some folds =>
    cases hrun : runFolds env k sel.sequences folds with
    | none => simp [cvCandidate, hfolds, hrun] at hc
    | some r =>
      have hcv : cvCandidate env sel k = some (r.2, r.1.sum / (r.1.length : ℚ)) := by
        simp [cvCandidate, hfolds, hrun]
      rw [hcv] at hc
      injection hc with hc'
      have hm : r.2 = m := congrArg Prod.fst hc'
      obtain ⟨f, hf, hfit⟩ :=
        runFolds_last env k sel.sequences folds r.1 r.2 (by rw [hrun])
      have hfmem : f ∈ folds := List.mem_of_mem_getLast? (Option.mem_def.mpr hf)
      obtain ⟨hne, hdisj⟩ :=
        kFoldSplit_mem (min 3 sel.lengths.length) sel.sequences.length folds
          hfolds f hfmem
      exact ⟨folds, f, rfl, hf, hm ▸ hfit, hne, hdisj⟩

/-- Witness for C10: under `envW10` (a fitted model records its training row
count) the successful candidate carries model 1, the row count of the last
fold's one-row training matrix, not of the full three-row corpus. -/
theorem C10_witness :
    (∃ q, cvCandidate envW10 selW10 2 = some (1, q)) ∧
    (∃ folds f, cvFolds selW10 = some folds ∧ folds.getLast? = some f ∧
      envW10.fit 2 (combine_sequences f.1 selW10.sequences).1
        (combine_sequences f.1 selW10.sequences).2 = some 1 ∧
      f.2 ≠ [] ∧ ∀ i ∈ f.2, i ∉ f.1) :=
  ⟨⟨_, rfl⟩, C10_cv_returns_last_fold_model envW10 selW10 2 1 _ rfl⟩
